import Mathlib

/-!
Verification development for the `streamlit-manager` control plane.

The definitions below are a shallow embedding of the Python sources under
`streamlit_host/`: `app_manager.py` (lifecycle manager, metadata store, port
allocator, log tailing) and `proxy.py` (HTTP/WebSocket reverse proxy header
handling).  Machine-level effects are made explicit:

* timestamps (`datetime.utcnow()`) become a `now : Nat` parameter;
* process liveness (`psutil`) becomes a `ProcEnv` of boolean oracles;
* the probe `is_port_free` (from the absent `utils` module) becomes a
  `free : Nat → Bool` parameter, and `sha256_file` an abstract
  `hash : String → String` parameter;
* filesystem writes performed by `_save_meta` are recorded as an explicit
  trace of `FsOp` operations;
* the per-app `meta.json` store becomes a map `String → Option AppMeta`.
-/

namespace StreamlitHost

/-- Embedding of `models.AppStatus` (`str, Enum` with five values). -/
inductive AppStatus where
  | created
  | starting
  | running
  | failed
  | stopped
deriving DecidableEq, Repr

/-- Embedding of `models.AppMeta` (pydantic model).  `datetime` fields are
modelled as `Nat` clock readings; optional fields as `Option`. -/
structure AppMeta where
  app_id : String
  name : Option String := none
  created_at : Nat := 0
  updated_at : Nat := 0
  status : AppStatus := AppStatus.created
  port : Option Nat := none
  pid : Option Nat := none
  error : Option String := none
  requirements_sha256 : Option String := none
  app_sha256 : Option String := none
deriving DecidableEq, Repr

/-- Python truthiness of the optional `meta.pid` field (`if meta.pid:`):
`None` and `0` are falsy. -/
def pidTruthy : Option Nat → Bool
  | none => false
  | some p => p != 0

/-- Oracles for the `psutil` queries made by `_refresh_status`:
`pid_exists p` models `psutil.pid_exists(p)`, and `proc_alive p` models
`p.is_running() and p.status() != psutil.STATUS_ZOMBIE` succeeding without
an exception. -/
structure ProcEnv where
  pid_exists : Nat → Bool
  proc_alive : Nat → Bool

/-- Filesystem operations that the metadata store can perform.  `_save_meta`
emits `write`; an atomic temp-then-rename save would emit a `write` to a
temporary path followed by a `rename`. -/
inductive FsOp where
  | write (path : String) (content : String)
  | rename (src : String) (dst : String)
deriving DecidableEq, Repr

/-- Embedding of `AppManager._meta_path` with the default data directory. -/
def meta_path (app_id : String) : String :=
  "data/apps/" ++ app_id ++ "/meta.json"

/-- Record-level effect of `AppManager._save_meta`: it stamps
`meta.updated_at = datetime.utcnow()` before serializing. -/
def save_meta_record (now : Nat) (m : AppMeta) : AppMeta :=
  { m with updated_at := now }

/-- Filesystem trace of `AppManager._save_meta`: a single
`meta_path.write_text(meta.model_dump_json(...))` call, with `dump` the
abstract serializer. -/
def save_meta_ops (dump : AppMeta → String) (now : Nat) (m : AppMeta) : List FsOp :=
  [FsOp.write (meta_path m.app_id) (dump (save_meta_record now m))]

/-- Embedding of `AppManager._save_meta`: the updated record paired with the
trace of filesystem operations the save performs. -/
def save_meta (dump : AppMeta → String) (now : Nat) (m : AppMeta) : AppMeta × List FsOp :=
  (save_meta_record now m, save_meta_ops dump now m)

/-- An operation trace writes a file atomically when it writes the content to
a temporary path and then renames that path onto the final path. -/
def WritesAtomically (ops : List FsOp) (final : String) : Prop :=
  ∃ tmp content, tmp ≠ final ∧ ops = [FsOp.write tmp content, FsOp.rename tmp final]

/-- Embedding of `AppManager._refresh_status`.  Returns the reconciled record
together with a flag telling whether `_save_meta` was called (a persisted
mutation, which also stamps `updated_at := now`). -/
def refresh_status (env : ProcEnv) (now : Nat) (m : AppMeta) : AppMeta × Bool :=
  match m.pid with
  | none => (m, false)
  | some pid =>
    if pid == 0 then (m, false)
    else if env.pid_exists pid && env.proc_alive pid then
      if m.status = AppStatus.running ∨ m.status = AppStatus.starting then (m, false)
      else ({ m with status := AppStatus.running, updated_at := now }, true)
    else
      if m.status = AppStatus.running ∨ m.status = AppStatus.starting then
        ({ m with status := AppStatus.stopped, pid := none, updated_at := now }, true)
      else (m, false)

/-- Embedding of `AppManager.stop_app` acting on an existing record: refresh,
kill the process tree and clear `pid` when `pid` is truthy, set
`status = stopped`, persist.  `_kill_pid_tree` only affects the process
environment, not the record, so it leaves no trace here. -/
def stop_app (env : ProcEnv) (now : Nat) (m : AppMeta) : AppMeta :=
  let m1 := (refresh_status env now m).1
  let m2 := if pidTruthy m1.pid then { m1 with pid := none } else m1
  save_meta_record now { m2 with status := AppStatus.stopped }

/-- Error raised by `AppManager._alloc_port`
(`RuntimeError("no free ports available")`). -/
inductive PortError where
  | noPortsAvailable
deriving DecidableEq, Repr

/-- The ports scanned by `_alloc_port`: `range(port_min, port_max + 1)`. -/
def port_range (pmin pmax : Nat) : List Nat :=
  List.range' pmin (pmax + 1 - pmin)

/-- Embedding of `AppManager._alloc_port`.  The source holds `self._lock`
around the whole scan; the embedding accordingly models the scan as one
atomic step.  `free` is the `is_port_free(host, port)` probe. -/
def alloc_port (free : Nat → Bool) (pmin pmax : Nat) : Except PortError Nat :=
  match (port_range pmin pmax).find? free with
  | some p => Except.ok p
  | none => Except.error PortError.noPortsAvailable

/-- Python `s.split(c)` for a one-character separator, over the character
list of the string: always returns at least one (possibly empty) piece. -/
def split_on_char (c : Char) : List Char → List (List Char)
  | [] => [[]]
  | ch :: rest =>
    match split_on_char c rest with
    | [] => [[]]
    | line :: more =>
      if ch == c then [] :: line :: more else (ch :: line) :: more

/-- Python `str.strip()`: drop leading and trailing whitespace. -/
def py_strip (s : String) : String :=
  String.mk
    (((s.data.dropWhile Char.isWhitespace).reverse.dropWhile Char.isWhitespace).reverse)

/-- Python `str.lower()` (header names here are ASCII). -/
def lower_str (s : String) : String :=
  String.mk (s.data.map Char.toLower)

/-- Python `str.splitlines()` restricted to texts whose only line boundary
character is the newline: `""` gives `[]`, and a trailing newline does not
produce a final empty line. -/
def splitlinesNL (s : String) : List String :=
  if s = "" then []
  else
    let parts := (split_on_char '\n' s.data).map String.mk
    if s.data.getLast? == some '\n' then parts.dropLast else parts

/-- Python list slice `lines[-tail:]` for an `int` value `tail`:
positive `tail` keeps the last `tail` elements (all of them when
`tail ≥ len`), `0` keeps everything, and negative `tail` drops the first
`-tail` elements. -/
def pyTailSlice (lines : List String) (tail : Int) : List String :=
  if 0 < tail then lines.drop (lines.length - tail.toNat)
  else lines.drop (-tail).toNat

/-- Embedding of `AppManager.tail_logs`: `log_file` is the content of
`run.log` when it exists.  The REST layer (`main.get_logs`) passes the
query parameter `tail` through unmodified. -/
def tail_logs (log_file : Option String) (tail : Int) : String :=
  match log_file with
  | none => ""
  | some txt => String.intercalate "\n" (pyTailSlice (splitlinesNL txt) tail)

/-- On-disk user files of one app (`requirements.txt` and `app.py`
contents). -/
structure AppFiles where
  requirements_txt : String
  app_py : String
deriving DecidableEq, Repr

/-- Embedding of `AppManager.update_app` acting on an existing record `m`
with current files `files`.  Mirrors the source order: best-effort stop
(which persists a stopped record, later overwritten), optional rename
(`name.strip()` non-empty), optional file overwrites with recomputed
digests, clear `error` and `pid`, set `status = starting`, assign
`meta.port = self._alloc_port()` (which may raise `PortError`, in which case
nothing further is persisted), and finally `_save_meta`.  `hash` abstracts
`sha256_file`. -/
def update_app (hash : String → String) (free : Nat → Bool) (pmin pmax : Nat)
    (env : ProcEnv) (now : Nat) (m : AppMeta) (files : AppFiles)
    (new_name req_file app_file : Option String) :
    Except PortError (AppMeta × AppFiles) :=
  let _stopped := stop_app env now m
  let m1 := match new_name with
    | some s => if py_strip s = "" then m else { m with name := some (py_strip s) }
    | none => m
  let files1 := match req_file with
    | some c => { files with requirements_txt := c }
    | none => files
  let m2 := match req_file with
    | some c => { m1 with requirements_sha256 := some (hash c) }
    | none => m1
  let files2 := match app_file with
    | some c => { files1 with app_py := c }
    | none => files1
  let m3 := match app_file with
    | some c => { m2 with app_sha256 := some (hash c) }
    | none => m2
  match alloc_port free pmin pmax with
  | Except.error e => Except.error e
  | Except.ok p =>
    Except.ok
      (save_meta_record now
        { m3 with error := none, pid := none, status := AppStatus.starting, port := some p },
       files2)

/-- Error raised by `AppManager._load_meta` when `meta.json` is absent
(`FileNotFoundError`, surfaced as HTTP 404). -/
inductive AppError where
  | not_found
deriving DecidableEq, Repr

/-- The metadata store: for each app id, the persisted record when its
`meta.json` file exists. -/
abbrev MetaStore : Type := String → Option AppMeta

/-- Embedding of `AppManager.get_app`: `_load_meta` (raising `not_found`
when the record file is absent) followed by `_refresh_status`. -/
def get_app (env : ProcEnv) (now : Nat) (store : MetaStore) (app_id : String) :
    Except AppError AppMeta :=
  match store app_id with
  | none => Except.error AppError.not_found
  | some m => Except.ok (refresh_status env now m).1

/-- Embedding of `AppManager.delete_app`: `stop_app` (returning early when
`_load_meta` raises `FileNotFoundError`), then
`shutil.rmtree(app_dir, ignore_errors=True)`, which removes `meta.json`
along with the rest of the directory. -/
def delete_app (env : ProcEnv) (now : Nat) (store : MetaStore) (app_id : String) :
    MetaStore :=
  match store app_id with
  | none => store
  | some m =>
    let store1 : MetaStore :=
      fun k => if k = app_id then some (stop_app env now m) else store k
    fun k => if k = app_id then none else store1 k

/-- Embedding of `proxy.HOP_BY_HOP_HEADERS` (the set literal, which also
holds `host` and `content-length`). -/
def hop_by_hop_headers : List String :=
  ["connection", "keep-alive", "proxy-authenticate", "proxy-authorization",
   "te", "trailers", "transfer-encoding", "upgrade", "host", "content-length"]

/-- Header maps are Python `dict`s keyed by the exact (case-preserved)
header name, modelled as association lists in insertion order. -/
abbrev Headers : Type := List (String × String)

/-- Python `d[k] = v` on a `dict`: replace the entry in place when the exact
key is present (a `dict` holds each key once), append otherwise. -/
def dict_set : Headers → String → String → Headers
  | [], k, v => [(k, v)]
  | kv :: rest, k, v =>
    if kv.1 == k then (k, v) :: rest else kv :: dict_set rest k v

/-- Python `d.pop(k, None)` restricted to its effect on the mapping. -/
def dict_pop (d : Headers) (k : String) : Headers :=
  d.filter (fun kv => kv.1 != k)

/-- Python `d.get(k)`: value of the first (and in a `dict`, only) entry with
the exact key `k`. -/
def dict_get (d : Headers) (k : String) : Option String :=
  (d.find? (fun kv => kv.1 == k)).map (fun kv => kv.2)

/-- Starlette's case-insensitive `request.headers.get(name)` over the raw
header list. -/
def get_header_ci (hs : Headers) (name : String) : Option String :=
  (hs.find? (fun kv => lower_str kv.1 == name)).map (fun kv => kv.2)

/-- Embedding of `proxy._filter_headers`: fold the raw header pairs into a
`dict`, skipping any whose lowercased name is hop-by-hop. -/
def filter_headers (hs : Headers) : Headers :=
  hs.foldl
    (fun out kv =>
      if hop_by_hop_headers.contains (lower_str kv.1) then out
      else dict_set out kv.1 kv.2)
    []

/-- Python `s.split(":", 1)[1]`: everything after the first colon.
Meaningful only when `s` holds a colon (the source guards on that). -/
def after_first_colon (s : String) : String :=
  String.mk ((s.data.dropWhile (fun ch => ch != ':')).drop 1)

/-- Embedding of the request-header assembly in `proxy.proxy_http`:
filter hop-by-hop headers, then — under the source's truthiness guard
`if external_host:`, which an absent `Host` header and an empty-valued one
both fail — pop any remaining `host`/`Host` keys and inject `Host`,
`X-Forwarded-Host` and (when the host holds a colon) `X-Forwarded-Port`;
finally inject `X-Forwarded-Proto` and `Accept-Encoding: identity`. -/
def build_forward_headers (client_headers : Headers) (scheme : String) : Headers :=
  let h0 := filter_headers client_headers
  let h1 := match get_header_ci client_headers "host" with
    | some host =>
      if host = "" then h0
      else
        let a := dict_set (dict_pop (dict_pop h0 "host") "Host") "Host" host
        let b := dict_set a "X-Forwarded-Host" host
        if host.data.contains ':' then
          dict_set b "X-Forwarded-Port" (after_first_colon host)
        else b
    | none => h0
  let h2 := dict_set h1 "X-Forwarded-Proto" scheme
  dict_set h2 "Accept-Encoding" "identity"

/-- Embedding of the response-header filtering in `proxy.proxy_http`: keep
an upstream header exactly when its lowercased name is neither hop-by-hop
nor `content-encoding` (performed before the `Location` rewrite). -/
def filter_response_headers (hs : Headers) : Headers :=
  hs.filter
    (fun kv =>
      !(hop_by_hop_headers.contains (lower_str kv.1)) &&
        lower_str kv.1 != "content-encoding")

/-- Embedding of the offered-subprotocol parsing in `proxy.proxy_ws`:
`[s.strip() for s in subp.split(",")] if subp else []` where `subp` is the
client `Sec-WebSocket-Protocol` header value (falsy when absent or empty). -/
def offered_subprotocols (subp : Option String) : List String :=
  match subp with
  | none => []
  | some s =>
    if s = "" then []
    else (split_on_char ',' s.data).map (fun cs => py_strip (String.mk cs))

/-- Embedding of the accept decision in `proxy.proxy_ws`: accept the client
with the upstream-chosen subprotocol exactly when
`chosen and chosen in offered_subprotocols` (Python truthiness: non-`None`
and non-empty), else accept with no subprotocol. -/
def accept_subprotocol (chosen : Option String) (offered : List String) :
    Option String :=
  match chosen with
  | none => none
  | some c => if c ≠ "" ∧ c ∈ offered then some c else none

/-- A process environment in which every pid is dead. -/
def env_dead : ProcEnv := ⟨fun _ => false, fun _ => false⟩

/-- A process environment in which every pid is alive and not a zombie. -/
def env_live : ProcEnv := ⟨fun _ => true, fun _ => true⟩

/-- A freshly created sample record. -/
def sample_meta : AppMeta := { app_id := "abc123" }

/-- A sample record for an app currently marked running with a live pid. -/
def sample_running : AppMeta :=
  { app_id := "abc123", status := AppStatus.running, port := some 8501,
    pid := some 100 }

/-- The reconciled record of `_refresh_status` differs from its input in at
most `status`, `pid` and `updated_at`: it is the input unchanged, or the
input promoted to `running`, or the input demoted to `stopped` with `pid`
cleared. -/
theorem refresh_status_cases (env : ProcEnv) (now : Nat) (m : AppMeta) :
    (refresh_status env now m).1 = m ∨
    (refresh_status env now m).1 = { m with status := AppStatus.running, updated_at := now } ∨
    (refresh_status env now m).1 =
      { m with status := AppStatus.stopped, pid := none, updated_at := now } := by
  unfold refresh_status
  cases m.pid with
  | none => left; rfl
  | some p =>
    by_cases h0 : p == 0
    · simp [h0]
    · by_cases hl : env.pid_exists p && env.proc_alive p
      · by_cases hs : m.status = AppStatus.running ∨ m.status = AppStatus.starting
        · simp [h0, hl, hs]
        · simp [h0, hl, hs]
      · by_cases hs : m.status = AppStatus.running ∨ m.status = AppStatus.starting
        · simp [h0, hl, hs]
        · simp [h0, hl, hs]

/-- In the promoted case of `refresh_status_cases` the pid is truthy, so
`stop_app` always ends with `pid := none` when the input pid is not the
degenerate `some 0`.  `stop_app` is, for such records, the constant update
to a stopped record stamped at `now`. -/
theorem stop_app_eq (env : ProcEnv) (now : Nat) (m : AppMeta)
    (h : m.pid ≠ some 0) :
    stop_app env now m =
      { m with pid := none, status := AppStatus.stopped, updated_at := now } := by
  unfold stop_app
  rcases refresh_status_cases env now m with hr | hr | hr <;> rw [hr] <;>
    cases m with
    | mk aid nm ca ua st pt pd er rs asha =>
      cases pd with
      | none => simp [pidTruthy, save_meta_record]
      | some p =>
        have hp : p ≠ 0 := by
          intro hp0
          exact h (by simp [hp0])
        simp [pidTruthy, hp, save_meta_record]

/-- C1.  The claim says `_save_meta` persists atomically via
write-to-temp-then-rename.  The source performs a single direct
`meta_path.write_text(...)`; its trace is one `write` and holds no
`rename`, so it is not of the temp-then-rename shape at this concrete
record. -/
theorem c1_counterexample :
    ¬ WritesAtomically (save_meta (fun _ => "") 1 sample_meta).2
        (meta_path sample_meta.app_id) := by
  rintro ⟨tmp, content, hne, h⟩
  simp [save_meta, save_meta_ops] at h

/-- C1 (amended).  `_save_meta` stamps `updated_at := now` and writes the
serialized record directly to the final metadata path in one write; no
temporary file and no rename are involved, so the save is not atomic in the
write-to-temp-then-rename sense. -/
theorem c1_save_meta_direct_write (dump : AppMeta → String) (now : Nat) (m : AppMeta) :
    (save_meta dump now m).1 = { m with updated_at := now } ∧
    (save_meta dump now m).2 =
      [FsOp.write (meta_path m.app_id) (dump { m with updated_at := now })] ∧
    ¬ WritesAtomically (save_meta dump now m).2 (meta_path m.app_id) := by
  refine ⟨rfl, rfl, ?_⟩
  rintro ⟨tmp, content, hne, h⟩
  simp [save_meta, save_meta_ops] at h

/-- C1 witness: the amended statement evaluated at a concrete record. -/
theorem c1_save_meta_direct_write_witness :
    (save_meta (fun _ => "x") 5 sample_meta).1 = { sample_meta with updated_at := 5 } ∧
    (save_meta (fun _ => "x") 5 sample_meta).2 =
      [FsOp.write (meta_path sample_meta.app_id)
        ((fun _ => "x") { sample_meta with updated_at := 5 })] ∧
    ¬ WritesAtomically (save_meta (fun _ => "x") 5 sample_meta).2
        (meta_path sample_meta.app_id) :=
  c1_save_meta_direct_write (fun _ => "x") 5 sample_meta

/-- C8.  `stop_app` is idempotent: a second stop (possibly under a
different process environment and at a later clock) produces exactly the
record a single stop at that same moment would, and a stopped record has
`status = stopped` with `pid` cleared.  The hypothesis excludes the
degenerate pid `some 0`, which Python truthiness would treat as absent
(real pids are never 0). -/
theorem c8_stop_idempotent (env env2 : ProcEnv) (t t2 : Nat) (m : AppMeta)
    (h : m.pid ≠ some 0) :
    stop_app env2 t2 (stop_app env t m) = stop_app env2 t2 m ∧
    (stop_app env t m).status = AppStatus.stopped ∧
    (stop_app env t m).pid = none := by
  have h1 := stop_app_eq env t m h
  have h2 := stop_app_eq env2 t2 m h
  have h3 :
      ({ m with pid := none, status := AppStatus.stopped, updated_at := t } : AppMeta).pid
        ≠ some 0 := by simp
  have h4 := stop_app_eq env2 t2
    { m with pid := none, status := AppStatus.stopped, updated_at := t } h3
  refine ⟨?_, ?_, ?_⟩
  · rw [h1, h4, h2]
  · rw [h1]
  · rw [h1]

/-- C8 witness: stopping a concrete running record twice. -/
theorem c8_stop_idempotent_witness :
    stop_app env_dead 2 (stop_app env_live 1 sample_running) =
      stop_app env_dead 2 sample_running ∧
    (stop_app env_live 1 sample_running).status = AppStatus.stopped ∧
    (stop_app env_live 1 sample_running).pid = none :=
  c8_stop_idempotent env_live env_dead 1 2 sample_running (by decide)

/-- C9.  After `delete_app` (best-effort stop, early return when the record
is already absent, then `shutil.rmtree`), a subsequent `get_app` on the
same id fails with `not_found`, whatever the store, environments and
clocks. -/
theorem c9_delete_then_get_not_found (env env2 : ProcEnv) (now now2 : Nat)
    (store : MetaStore) (app_id : String) :
    get_app env2 now2 (delete_app env now store app_id) app_id =
      Except.error AppError.not_found := by
  unfold get_app delete_app
  cases h : store app_id with
  | none => simp [h]
  | some m => simp

/-- C9 witness: deleting a concrete one-app store. -/
theorem c9_delete_then_get_not_found_witness :
    get_app env_dead 1
        (delete_app env_live 0 (fun _ => some sample_running) "abc123") "abc123" =
      Except.error AppError.not_found :=
  c9_delete_then_get_not_found env_live env_dead 0 1 (fun _ => some sample_running) "abc123"

/-- C10.  Tailing the logs of an app whose `run.log` does not exist returns
the empty string for every requested line count, rather than raising. -/
theorem c10_tail_logs_no_file (tail : Int) : tail_logs none tail = "" := rfl

/-- C10 witness: the default REST tail count on a missing log file. -/
theorem c10_tail_logs_no_file_witness : tail_logs none 200 = "" :=
  c10_tail_logs_no_file 200

/-- Tail-logs as the specification describes it for claim C5: the requested
line count is clamped into `[50, 5000]` before use. -/
def tail_logs_clamped (log_file : Option String) (tail : Int) : String :=
  tail_logs log_file (max 50 (min 5000 tail))

/-- C5.  The claim says the requested count is clamped into `[50, 5000]`
before use.  Neither `AppManager.tail_logs` nor `main.get_logs` clamps:
at count 1 on a two-line log the code returns only the last line, while the
clamped reading would return both lines. -/
theorem c5_counterexample :
    tail_logs (some "line1\nline2") 1 = "line2" ∧
    tail_logs_clamped (some "line1\nline2") 1 = "line1\nline2" ∧
    tail_logs (some "line1\nline2") 1 ≠ tail_logs_clamped (some "line1\nline2") 1 :=
  ⟨by decide, by decide, by decide⟩

/-- C5 (amended).  For every positive requested count `n`, `tail_logs`
returns the last `min n (number of lines)` newline-delimited lines of the
log joined by newlines, with no clamping of `n`. -/
theorem c5_tail_logs_last_lines (txt : String) (n : Int) (hn : 0 < n) :
    (pyTailSlice (splitlinesNL txt) n).length =
      min n.toNat (splitlinesNL txt).length ∧
    (pyTailSlice (splitlinesNL txt) n) <:+ splitlinesNL txt ∧
    tail_logs (some txt) n =
      String.intercalate "\n" (pyTailSlice (splitlinesNL txt) n) := by
  refine ⟨?_, ?_, rfl⟩
  · have h1 : 1 ≤ n.toNat := by omega
    simp only [pyTailSlice, if_pos hn, List.length_drop]
    omega
  · simp only [pyTailSlice, if_pos hn]
    exact List.drop_suffix _ _

/-- C5 witness: the amended statement on a three-line log with count 2. -/
theorem c5_tail_logs_last_lines_witness :
    (pyTailSlice (splitlinesNL "a\nb\nc") 2).length =
      min (Int.toNat 2) (splitlinesNL "a\nb\nc").length ∧
    (pyTailSlice (splitlinesNL "a\nb\nc") 2) <:+ splitlinesNL "a\nb\nc" ∧
    tail_logs (some "a\nb\nc") 2 =
      String.intercalate "\n" (pyTailSlice (splitlinesNL "a\nb\nc") 2) :=
  c5_tail_logs_last_lines "a\nb\nc" 2 (by decide)

/-- C7.  The client upgrade is accepted with the upstream-chosen
subprotocol exactly when that subprotocol is non-empty and among the list
the client offered in `Sec-WebSocket-Protocol` (comma-separated, entries
stripped); in every other case the client is accepted with no
subprotocol. -/
theorem c7_accept_subprotocol_spec (chosen subp : Option String) :
    (∀ c, accept_subprotocol chosen (offered_subprotocols subp) = some c ↔
      (chosen = some c ∧ c ≠ "" ∧ c ∈ offered_subprotocols subp)) ∧
    (accept_subprotocol chosen (offered_subprotocols subp) = none ↔
      ¬ ∃ c, chosen = some c ∧ c ≠ "" ∧ c ∈ offered_subprotocols subp) := by
  cases chosen with
  | none => simp [accept_subprotocol]
  | some c0 =>
    by_cases hc : c0 ≠ "" ∧ c0 ∈ offered_subprotocols subp
    · refine ⟨fun c => ⟨?_, ?_⟩, ?_, ?_⟩
      · simp only [accept_subprotocol, if_pos hc, Option.some.injEq]
        rintro rfl
        exact ⟨rfl, hc.1, hc.2⟩
      · rintro ⟨h1, h2, h3⟩
        injection h1 with h1
        subst h1
        simp only [accept_subprotocol, if_pos hc]
      · simp only [accept_subprotocol, if_pos hc]
        intro h
        exact Option.noConfusion h
      · intro h
        exact absurd ⟨c0, rfl, hc.1, hc.2⟩ h
    · refine ⟨fun c => ⟨?_, ?_⟩, ?_, ?_⟩
      · simp only [accept_subprotocol, if_neg hc]
        intro h
        exact Option.noConfusion h
      · rintro ⟨h1, h2, h3⟩
        injection h1 with h1
        subst h1
        exact absurd ⟨h2, h3⟩ hc
      · intro _
        rintro ⟨c, h1, h2, h3⟩
        injection h1 with h1
        subst h1
        exact hc ⟨h2, h3⟩
      · intro _
        simp only [accept_subprotocol, if_neg hc]

/-- C7 witness: the client offers `x, y` and the upstream chooses `y`. -/
theorem c7_accept_subprotocol_spec_witness :
    accept_subprotocol (some "y") (offered_subprotocols (some "x, y")) = some "y" :=
  ((c7_accept_subprotocol_spec (some "y") (some "x, y")).1 "y").mpr
    ⟨rfl, by decide, by decide⟩

/-- A failed record with a stale pid. -/
def sample_failed : AppMeta :=
  { app_id := "abc123", status := AppStatus.failed, pid := some 100 }

/-- A newly created record holding a pid. -/
def sample_created_pid : AppMeta := { app_id := "abc123", pid := some 100 }

/-- C3.  The claim says that when a pid is present but its process is gone,
the pid is cleared unconditionally.  In the source the dead-process branch
mutates the record only when `status ∈ {running, starting}`: a `failed`
record with a dead pid 100 is returned unchanged, stale pid included, and
nothing is persisted. -/
theorem c3_counterexample :
    sample_failed.pid = some 100 ∧
    env_dead.pid_exists 100 = false ∧
    refresh_status env_dead 7 sample_failed = (sample_failed, false) ∧
    (refresh_status env_dead 7 sample_failed).1.pid ≠ none := by
  refine ⟨rfl, rfl, rfl, ?_⟩
  decide

/-- C3 (amended).  Reconciliation behaves as follows: an absent (or falsy)
pid leaves the record untouched; a live, non-zombie pid promotes the status
to `running` and persists exactly when the status is neither `running` nor
`starting`; a dead pid demotes to `stopped`, clears the pid and persists
exactly when the status was `running` or `starting`, and otherwise leaves
the record — stale pid included — untouched. -/
theorem c3_refresh_status_spec (env : ProcEnv) (now : Nat) (m : AppMeta) :
    (pidTruthy m.pid = false → refresh_status env now m = (m, false)) ∧
    (∀ p, m.pid = some p → p ≠ 0 →
      (env.pid_exists p && env.proc_alive p) = true →
      refresh_status env now m =
        if m.status = AppStatus.running ∨ m.status = AppStatus.starting
        then (m, false)
        else ({ m with status := AppStatus.running, updated_at := now }, true)) ∧
    (∀ p, m.pid = some p → p ≠ 0 →
      (env.pid_exists p && env.proc_alive p) = false →
      refresh_status env now m =
        if m.status = AppStatus.running ∨ m.status = AppStatus.starting
        then ({ m with status := AppStatus.stopped, pid := none, updated_at := now }, true)
        else (m, false)) := by
  refine ⟨?_, ?_, ?_⟩
  · intro h
    cases hm : m.pid with
    | none => simp [refresh_status, hm]
    | some p =>
      rw [hm] at h
      simp only [pidTruthy, bne_eq_false_iff_eq] at h
      simp [refresh_status, hm, h]
  · intro p hm hp hl
    have hp2 : (p == 0) = false := by simp [hp]
    simp [refresh_status, hm, hp2, hl]
  · intro p hm hp hl
    have hp2 : (p == 0) = false := by simp [hp]
    simp [refresh_status, hm, hp2, hl]

/-- C3 witness: the promote branch taken by a created record whose pid is
alive. -/
theorem c3_refresh_status_spec_witness :
    refresh_status env_live 3 sample_created_pid =
      if sample_created_pid.status = AppStatus.running ∨
          sample_created_pid.status = AppStatus.starting
      then (sample_created_pid, false)
      else ({ sample_created_pid with status := AppStatus.running, updated_at := 3 },
            true) :=
  (c3_refresh_status_spec env_live 3 sample_created_pid).2.1 100 rfl
    (by decide) (by decide)

/-- The first-match characterization of the linear scan over
`range(s, s + n)`. -/
theorem range'_find?_eq_some (free : Nat → Bool) :
    ∀ (n s p : Nat), (List.range' s n).find? free = some p ↔
      (s ≤ p ∧ p < s + n ∧ free p = true ∧
        ∀ q, s ≤ q → q < p → free q = false) := by
  intro n
  induction n with
  | zero =>
    intro s p
    constructor
    · intro h
      simp [List.range'] at h
    · rintro ⟨h1, h2, -, -⟩
      omega
  | succ n ih =>
    intro s p
    rw [show List.range' s (n + 1) = s :: List.range' (s + 1) n from rfl]
    by_cases hs : free s
    · rw [List.find?_cons_of_pos _ hs]
      constructor
      · intro h
        injection h with h
        subst h
        exact ⟨Nat.le_refl s, by omega, hs, fun q hq1 hq2 => absurd hq1 (by omega)⟩
      · rintro ⟨h1, h2, h3, h4⟩
        have hps : p = s := by
          by_contra hne
          have hlt : s < p := by omega
          have hfs := h4 s (Nat.le_refl s) hlt
          rw [hs] at hfs
          exact Bool.noConfusion hfs
        rw [hps]
    · have hs2 : free s = false := by simpa using hs
      rw [List.find?_cons_of_neg _ hs, ih (s + 1) p]
      constructor
      · rintro ⟨h1, h2, h3, h4⟩
        refine ⟨by omega, by omega, h3, fun q hq1 hq2 => ?_⟩
        by_cases hqs : q = s
        · rw [hqs]
          exact hs2
        · exact h4 q (by omega) hq2
      · rintro ⟨h1, h2, h3, h4⟩
        have hps : p ≠ s := by
          intro e
          rw [← e] at hs2
          rw [h3] at hs2
          exact Bool.noConfusion hs2
        exact ⟨by omega, by omega, h3, fun q hq1 hq2 => h4 q (by omega) hq2⟩

/-- C4.  `_alloc_port` scans `[port_min, port_max]` in increasing order and
returns the first port the `is_port_free` probe reports free; when no port
in the range probes free it fails with the no-ports-available error.  The
source holds the allocator-wide `self._lock` across the whole scan, which
the embedding reflects by modelling the scan as a single atomic step. -/
theorem c4_alloc_port_spec (free : Nat → Bool) (pmin pmax : Nat) :
    (∀ p, alloc_port free pmin pmax = Except.ok p ↔
      (pmin ≤ p ∧ p ≤ pmax ∧ free p = true ∧
        ∀ q, pmin ≤ q → q < p → free q = false)) ∧
    (alloc_port free pmin pmax = Except.error PortError.noPortsAvailable ↔
      ∀ q, pmin ≤ q → q ≤ pmax → free q = false) := by
  have key : ∀ p, (List.range' pmin (pmax + 1 - pmin)).find? free = some p ↔
      (pmin ≤ p ∧ p ≤ pmax ∧ free p = true ∧
        ∀ q, pmin ≤ q → q < p → free q = false) := by
    intro p
    rw [range'_find?_eq_some]
    constructor
    · rintro ⟨h1, h2, h3, h4⟩
      exact ⟨h1, by omega, h3, h4⟩
    · rintro ⟨h1, h2, h3, h4⟩
      exact ⟨h1, by omega, h3, h4⟩
  constructor
  · intro p
    constructor
    · intro h
      have hf : (List.range' pmin (pmax + 1 - pmin)).find? free = some p := by
        revert h
        unfold alloc_port port_range
        cases hr : (List.range' pmin (pmax + 1 - pmin)).find? free with
        | some r =>
          intro h
          injection h with h
          rw [h]
        | none =>
          intro h
          exact Except.noConfusion h
      exact (key p).mp hf
    · intro hprop
      have hf := (key p).mpr hprop
      unfold alloc_port port_range
      rw [hf]
  · constructor
    · intro h q hq1 hq2
      have hf : (List.range' pmin (pmax + 1 - pmin)).find? free = none := by
        revert h
        unfold alloc_port port_range
        cases hr : (List.range' pmin (pmax + 1 - pmin)).find? free with
        | some r =>
          intro h
          exact Except.noConfusion h
        | none =>
          intro _
          rfl
      have hq := List.find?_eq_none.mp hf q (by rw [List.mem_range'_1]; omega)
      simpa using hq
    · intro hall
      have hf : (List.range' pmin (pmax + 1 - pmin)).find? free = none := by
        apply List.find?_eq_none.mpr
        intro x hx
        rw [List.mem_range'_1] at hx
        simp [hall x (by omega) (by omega)]
      unfold alloc_port port_range
      rw [hf]

/-- A probe under which every port is free. -/
def free_all : Nat → Bool := fun _ => true

/-- A stand-in for the abstract `sha256_file` digest. -/
def hash0 : String → String := fun _ => "h"

/-- A stopped record currently assigned port 8505. -/
def sample_port_8505 : AppMeta :=
  { app_id := "abc123", status := AppStatus.stopped, port := some 8505 }

/-- Empty sample user files. -/
def files0 : AppFiles := { requirements_txt := "", app_py := "" }

/-- C2.  The claim says update re-resolves the port by reusing the record's
current port when it is still free.  The source instead always assigns
`meta.port = self._alloc_port()`: with every port free (so the current port
8505 is certainly free) and range `[8501, 8999]`, update assigns 8501, not
the still-free current port 8505. -/
theorem c2_counterexample :
    sample_port_8505.port = some 8505 ∧
    free_all 8505 = true ∧
    (update_app hash0 free_all 8501 8999 env_dead 7 sample_port_8505 files0
        none none none).toOption.map (fun r => r.1.port) = some (some 8501) ∧
    (8501 : Nat) ≠ 8505 := by
  refine ⟨rfl, rfl, ?_, by decide⟩
  decide

/-- C2 (amended).  Update performs the best-effort stop and then, when the
allocator finds a free port (scanning `[port_min, port_max]` from the
bottom; the current port is not preferentially reused), persists the record
with: name replaced by its stripped value only when that is non-empty,
digests recomputed exactly for the files provided, `error` and `pid`
cleared, `status = starting`, the freshly allocated port, and the stamped
`updated_at`; the stored files are exactly the provided ones, the others
kept.  When the allocator fails, the failure propagates. -/
theorem c2_update_app_spec (hash : String → String) (free : Nat → Bool)
    (pmin pmax : Nat) (env : ProcEnv) (now : Nat) (m : AppMeta) (files : AppFiles)
    (new_name req_file app_file : Option String) :
    update_app hash free pmin pmax env now m files new_name req_file app_file =
      (alloc_port free pmin pmax).map (fun p =>
        ({ m with
            name := (match new_name with
              | some s => if py_strip s = "" then m.name else some (py_strip s)
              | none => m.name),
            requirements_sha256 := (match req_file with
              | some c => some (hash c)
              | none => m.requirements_sha256),
            app_sha256 := (match app_file with
              | some c => some (hash c)
              | none => m.app_sha256),
            error := none, pid := none, status := AppStatus.starting,
            port := some p, updated_at := now },
         { requirements_txt := req_file.getD files.requirements_txt,
           app_py := app_file.getD files.app_py })) := by
  cases hp : alloc_port free pmin pmax with
  | error e =>
    cases new_name <;> cases req_file <;> cases app_file <;>
      simp [update_app, hp, Except.map]
  | ok p =>
    cases new_name with
    | none =>
      cases req_file <;> cases app_file <;>
        simp [update_app, hp, Except.map, save_meta_record]
    | some s =>
      by_cases hps : py_strip s = "" <;>
        cases req_file <;> cases app_file <;>
          simp [update_app, hp, Except.map, save_meta_record, hps]

/-- C2 witness: the amended characterization at concrete inputs (no new
name or files; every port free in `[8501, 8503]`). -/
theorem c2_update_app_spec_witness :
    update_app hash0 free_all 8501 8503 env_dead 7 sample_port_8505 files0
        none none none =
      (alloc_port free_all 8501 8503).map (fun p =>
        ({ sample_port_8505 with
            error := none, pid := none,
            status := AppStatus.starting, port := some p, updated_at := 7 },
         files0)) := by
  rw [c2_update_app_spec]
  rfl

/-- C4 witness: with only port 8503 free in `[8501, 8505]`, the allocator
returns 8503. -/
theorem c4_alloc_port_spec_witness :
    alloc_port (fun q => q == 8503) 8501 8505 = Except.ok 8503 :=
  ((c4_alloc_port_spec (fun q => q == 8503) 8501 8505).1 8503).mpr
    ⟨by omega, by omega, by decide, by
      intro q h1 h2
      have hq : q ≠ 8503 := by omega
      simp [hq]⟩

/-- Looking up the key just set by `dict_set` yields the new value. -/
theorem dict_get_set_self (d : Headers) (k v : String) :
    dict_get (dict_set d k v) k = some v := by
  induction d with
  | nil => simp [dict_set, dict_get, List.find?]
  | cons x rest ih =>
    by_cases hx : x.1 = k
    · simp [dict_set, dict_get, List.find?, hx]
    · simp only [dict_get] at ih
      simp [dict_set, dict_get, List.find?, hx, ih]

/-- `dict_set` does not disturb the lookup of any other key. -/
theorem dict_get_set_ne (d : Headers) (k v k2 : String) (h : k2 ≠ k) :
    dict_get (dict_set d k v) k2 = dict_get d k2 := by
  have hkk2 : (k == k2) = false := by simp [Ne.symm h]
  induction d with
  | nil => simp [dict_set, dict_get, List.find?, hkk2]
  | cons x rest ih =>
    by_cases hx : x.1 = k
    · have hb1 : (x.1 == k) = true := by simp [hx]
      have hb2 : (x.1 == k2) = false := by simp [hx, Ne.symm h]
      simp [dict_set, dict_get, List.find?, hb1, hb2, hkk2]
    · have hb1 : (x.1 == k) = false := by simp [hx]
      by_cases hx2 : x.1 = k2
      · have hb2 : (x.1 == k2) = true := by simp [hx2]
        simp [dict_set, dict_get, List.find?, hb1, hb2]
      · have hb2 : (x.1 == k2) = false := by simp [hx2]
        simp only [dict_get] at ih
        simp [dict_set, dict_get, List.find?, hb1, hb2, ih]

/-- Every entry of `dict_set d k v` is an entry of `d` or the new pair. -/
theorem mem_dict_set (d : Headers) (k v : String) (kv : String × String)
    (h : kv ∈ dict_set d k v) : kv ∈ d ∨ kv = (k, v) := by
  induction d with
  | nil =>
    simp [dict_set] at h
    right
    exact h
  | cons x rest ih =>
    by_cases hx : x.1 = k
    · simp only [dict_set, hx, beq_self_eq_true, if_true] at h
      rcases List.mem_cons.mp h with h | h
      · right; exact h
      · left; exact List.mem_cons_of_mem _ h
    · have hx2 : (x.1 == k) = false := by simp [hx]
      simp only [dict_set, hx2, Bool.false_eq_true, if_false] at h
      rcases List.mem_cons.mp h with h | h
      · left; rw [h]; exact List.mem_cons_self _ _
      · rcases ih h with h | h
        · left; exact List.mem_cons_of_mem _ h
        · right; exact h

/-- `dict_pop` only removes entries. -/
theorem mem_dict_pop (d : Headers) (k : String) (kv : String × String)
    (h : kv ∈ dict_pop d k) : kv ∈ d :=
  List.mem_of_mem_filter h

/-- Fold invariant for `filter_headers`: every entry of the accumulated
dict is an original accumulator entry or a non-hop-by-hop client entry. -/
theorem mem_filter_headers_aux :
    ∀ (l acc : Headers) (kv : String × String),
      kv ∈ l.foldl
        (fun out kv2 =>
          if hop_by_hop_headers.contains (lower_str kv2.1) then out
          else dict_set out kv2.1 kv2.2) acc →
      kv ∈ acc ∨
        (kv ∈ l ∧ hop_by_hop_headers.contains (lower_str kv.1) = false) := by
  intro l
  induction l with
  | nil =>
    intro acc kv h
    left
    exact h
  | cons x rest ih =>
    intro acc kv h
    rcases ih _ kv h with h1 | h2
    · by_cases hx : hop_by_hop_headers.contains (lower_str x.1) = true
      · simp only [hx, if_true] at h1
        left
        exact h1
      · have hx2 : hop_by_hop_headers.contains (lower_str x.1) = false := by
          simpa using hx
        simp only [hx2, Bool.false_eq_true, if_false] at h1
        rcases mem_dict_set _ _ _ _ h1 with h1 | h1
        · left; exact h1
        · right
          constructor
          · rw [h1]; exact List.mem_cons_self _ _
          · rw [h1]; exact hx2
    · right
      exact ⟨List.mem_cons_of_mem _ h2.1, h2.2⟩

/-- Every forwarded entry produced by `_filter_headers` is a client entry
whose lowercased name is not hop-by-hop. -/
theorem mem_filter_headers (hs : Headers) (kv : String × String)
    (h : kv ∈ filter_headers hs) :
    kv ∈ hs ∧ hop_by_hop_headers.contains (lower_str kv.1) = false := by
  simp only [filter_headers] at h
  rcases mem_filter_headers_aux hs [] kv h with h1 | h2
  · exact absurd h1 (List.not_mem_nil kv)
  · exact h2

/-- C6.  Three concrete deviations from the claim.  With the client host
`[::1]:8080` (an IPv6 literal with port component `8080`), the injected
`X-Forwarded-Port` is everything after the first colon, `:1]:8080`, not
the port component.  When the client request carries no `Host` header, no
`Host` header is injected at all.  And a `Host` header with an empty value
is falsy under the source's `if external_host:` guard, so it too gets no
injection. -/
theorem c6_counterexample :
    dict_get (build_forward_headers [("Host", "[::1]:8080")] "http")
        "X-Forwarded-Port" = some ":1]:8080" ∧
    (":1]:8080" : String) ≠ "8080" ∧
    dict_get (build_forward_headers [("Accept", "text/html")] "http") "Host" =
      none ∧
    dict_get (build_forward_headers [("Host", "")] "http") "Host" = none := by
  refine ⟨by decide, by decide, by decide, by decide⟩

/-- C6 (amended).  The forwarded request headers are the client headers
with every name whose lowercase form is hop-by-hop (the exact ten-element
set, which contains `host` and `content-length`) removed, plus injections:
when the client sent a `Host` header with a non-empty (truthy) value, that
value is re-injected as `Host` and `X-Forwarded-Host`, and — when it holds
a colon — the substring after the first colon (the port component for
non-IPv6 hosts) as `X-Forwarded-Port`; `X-Forwarded-Proto` is the external
scheme and `Accept-Encoding` is `identity` unconditionally.  The relayed
response headers are exactly the upstream ones whose lowercased name is
neither hop-by-hop nor `content-encoding`. -/
theorem c6_proxy_header_transform (ch : Headers) (scheme : String) (rh : Headers) :
    dict_get (build_forward_headers ch scheme) "Accept-Encoding" =
      some "identity" ∧
    dict_get (build_forward_headers ch scheme) "X-Forwarded-Proto" =
      some scheme ∧
    (∀ h, get_header_ci ch "host" = some h → h ≠ "" →
      dict_get (build_forward_headers ch scheme) "Host" = some h ∧
      dict_get (build_forward_headers ch scheme) "X-Forwarded-Host" = some h ∧
      (h.data.contains ':' = true →
        dict_get (build_forward_headers ch scheme) "X-Forwarded-Port" =
          some (after_first_colon h))) ∧
    (∀ kv, kv ∈ build_forward_headers ch scheme →
      kv.1 ∈ (["Host", "X-Forwarded-Host", "X-Forwarded-Port",
        "X-Forwarded-Proto", "Accept-Encoding"] : List String) ∨
      (kv ∈ ch ∧ hop_by_hop_headers.contains (lower_str kv.1) = false)) ∧
    (∀ kv, kv ∈ filter_response_headers rh ↔
      (kv ∈ rh ∧ hop_by_hop_headers.contains (lower_str kv.1) = false ∧
        lower_str kv.1 ≠ "content-encoding")) := by
  refine ⟨?_, ?_, ?_, ?_, ?_⟩
  · simp only [build_forward_headers]
    exact dict_get_set_self _ _ _
  · simp only [build_forward_headers]
    rw [dict_get_set_ne _ _ _ _ (by decide)]
    exact dict_get_set_self _ _ _
  · intro h hh hne
    simp only [build_forward_headers, hh]
    rw [if_neg hne]
    by_cases hc : h.data.contains ':' = true
    · simp only [hc, if_true]
      refine ⟨?_, ?_, fun _ => ?_⟩
      · rw [dict_get_set_ne _ _ _ _ (by decide), dict_get_set_ne _ _ _ _ (by decide),
          dict_get_set_ne _ _ _ _ (by decide), dict_get_set_ne _ _ _ _ (by decide)]
        exact dict_get_set_self _ _ _
      · rw [dict_get_set_ne _ _ _ _ (by decide), dict_get_set_ne _ _ _ _ (by decide),
          dict_get_set_ne _ _ _ _ (by decide)]
        exact dict_get_set_self _ _ _
      · rw [dict_get_set_ne _ _ _ _ (by decide), dict_get_set_ne _ _ _ _ (by decide)]
        exact dict_get_set_self _ _ _
    · simp only [hc, Bool.false_eq_true, if_false]
      refine ⟨?_, ?_, fun hcc => hcc.elim⟩
      · rw [dict_get_set_ne _ _ _ _ (by decide), dict_get_set_ne _ _ _ _ (by decide),
          dict_get_set_ne _ _ _ _ (by decide)]
        exact dict_get_set_self _ _ _
      · rw [dict_get_set_ne _ _ _ _ (by decide), dict_get_set_ne _ _ _ _ (by decide)]
        exact dict_get_set_self _ _ _
  · intro kv hkv
    simp only [build_forward_headers] at hkv
    rcases mem_dict_set _ _ _ _ hkv with hkv | heq
    · rcases mem_dict_set _ _ _ _ hkv with hkv | heq
      · cases hhost : get_header_ci ch "host" with
        | none =>
          rw [hhost] at hkv
          right
          exact mem_filter_headers _ _ hkv
        | some host =>
          rw [hhost] at hkv
          simp only [] at hkv
          by_cases hhe : host = ""
          · rw [if_pos hhe] at hkv
            right
            exact mem_filter_headers _ _ hkv
          rw [if_neg hhe] at hkv
          by_cases hc : host.data.contains ':' = true
          · simp only [hc, if_true] at hkv
            rcases mem_dict_set _ _ _ _ hkv with hkv | heq
            · rcases mem_dict_set _ _ _ _ hkv with hkv | heq
              · rcases mem_dict_set _ _ _ _ hkv with hkv | heq
                · right
                  exact mem_filter_headers _ _
                    (mem_dict_pop _ _ _ (mem_dict_pop _ _ _ hkv))
                · left; rw [heq]; simp
              · left; rw [heq]; simp
            · left; rw [heq]; simp
          · simp only [hc, Bool.false_eq_true, if_false] at hkv
            rcases mem_dict_set _ _ _ _ hkv with hkv | heq
            · rcases mem_dict_set _ _ _ _ hkv with hkv | heq
              · right
                exact mem_filter_headers _ _
                  (mem_dict_pop _ _ _ (mem_dict_pop _ _ _ hkv))
              · left; rw [heq]; simp
            · left; rw [heq]; simp
      · left; rw [heq]; simp
    · left; rw [heq]; simp
  · intro kv
    simp only [filter_response_headers, List.mem_filter, Bool.and_eq_true,
      Bool.not_eq_true', bne_iff_ne, ne_eq, and_assoc]

/-- C6 witness: the transform applied to a concrete request (host with a
port, one hop-by-hop header) and a concrete upstream response. -/
theorem c6_proxy_header_transform_witness :
    dict_get
        (build_forward_headers
          [("Host", "example.com:8080"), ("Connection", "keep-alive")] "http")
        "Accept-Encoding" = some "identity" ∧
    dict_get
        (build_forward_headers
          [("Host", "example.com:8080"), ("Connection", "keep-alive")] "http")
        "X-Forwarded-Proto" = some "http" ∧
    (∀ h,
      get_header_ci
          [("Host", "example.com:8080"), ("Connection", "keep-alive")] "host" =
        some h →
      h ≠ "" →
      dict_get
          (build_forward_headers
            [("Host", "example.com:8080"), ("Connection", "keep-alive")] "http")
          "Host" = some h ∧
      dict_get
          (build_forward_headers
            [("Host", "example.com:8080"), ("Connection", "keep-alive")] "http")
          "X-Forwarded-Host" = some h ∧
      (h.data.contains ':' = true →
        dict_get
            (build_forward_headers
              [("Host", "example.com:8080"), ("Connection", "keep-alive")] "http")
            "X-Forwarded-Port" = some (after_first_colon h))) ∧
    (∀ kv, kv ∈ build_forward_headers
        [("Host", "example.com:8080"), ("Connection", "keep-alive")] "http" →
      kv.1 ∈ (["Host", "X-Forwarded-Host", "X-Forwarded-Port",
        "X-Forwarded-Proto", "Accept-Encoding"] : List String) ∨
      (kv ∈ [("Host", "example.com:8080"), ("Connection", "keep-alive")] ∧
        hop_by_hop_headers.contains (lower_str kv.1) = false)) ∧
    (∀ kv, kv ∈ filter_response_headers
        [("Content-Encoding", "gzip"), ("Content-Type", "text/html")] ↔
      (kv ∈ [("Content-Encoding", "gzip"), ("Content-Type", "text/html")] ∧
        hop_by_hop_headers.contains (lower_str kv.1) = false ∧
        lower_str kv.1 ≠ "content-encoding")) :=
  c6_proxy_header_transform
    [("Host", "example.com:8080"), ("Connection", "keep-alive")] "http"
    [("Content-Encoding", "gzip"), ("Content-Type", "text/html")]

end StreamlitHost
